import Mathlib

/-!
Verification development for the web downloader service (`app.py`).

The file shallowly embeds the pure/sequential core of the service:
the progress-line parser, the destination-announcement extraction, the
command builder, the per-job worker (as a function of the external
process's observable behaviour), the status route, and the fetch /
delayed-delete route over an explicit filesystem model.  External
effects (the subprocess, the OS filesystem, thread scheduling) are
modelled as explicit inputs; machine floats are modelled as exact
rationals; Python dicts as association lists.
-/

namespace YtWeb

/-! ### Character classes

Python's `re` classes restricted to ASCII, which is all the external
tool emits on the matched tokens: `\d` is an ASCII digit, `\s` is the
ASCII whitespace set (space, tab, newline, carriage return, vertical
tab, form feed).  The same set is what `str.strip()` removes.
-/

def isDigitCh (c : Char) : Bool :=
  c.isDigit

def isPySpace (c : Char) : Bool :=
  c == ' ' || c == '\t' || c == '\n' || c == '\r' || c == '\x0b' || c == '\x0c'

def isRateCh (c : Char) : Bool :=
  c.isDigit || c == '.'

/-- Python `str.strip()`: drop leading and trailing whitespace. -/
def pyStrip (s : String) : String :=
  String.mk (((s.data.dropWhile isPySpace).reverse.dropWhile isPySpace).reverse)

/-- Python slicing `s[:n]` by code points. -/
def pyTake (n : Nat) (s : String) : String :=
  String.mk (s.data.take n)

/-! ### The progress-line patterns (`parse_progress_line`, app.py 43-51)

The source matches, via `re.search`,

  full    : `(\d{1,3}\.\d+|\d{1,3})%.*?at\s+([\d\.]+[KMG]?iB/s).*?ETA\s+(\d{2}:\d{2})`
  reduced : `(\d{1,3}\.\d+|\d{1,3})%.*?at\s+([\d\.]+[KMG]?iB/s)`

The functions below implement exactly these two patterns with
`re.search` semantics: starting positions are tried left to right, the
alternation prefers its first branch, lazy `.*?` prefers the shortest
extension, and greedy pieces prefer the longest.  Three backtracking
steps of the engine are collapsed where only one candidate can ever
succeed on these patterns:
* `\d{1,3}` before `\.` (resp. `%`): digits and `.` (resp. `%`) are
  disjoint, so at a fixed start position exactly the maximal digit run
  of length ≤ 3 can be followed by the required literal;
* `\s+`: the token after it starts with a digit or `.`, never a
  whitespace character, so only the maximal whitespace run can succeed;
* `[\d\.]+`: giving characters back leaves the next character a digit
  or a dot, which can start neither `[KMG]?iB/s` branch, so only the
  maximal run can succeed.
-/

/-- `(\d{1,3}\.\d+|\d{1,3})%` anchored at the head of `cs`; returns the
percentage group and the remainder after `%`. -/
def matchPctAt (cs : List Char) : Option (List Char × List Char) :=
  if 1 ≤ (cs.takeWhile isDigitCh).length ∧ (cs.takeWhile isDigitCh).length ≤ 3 then
    match cs.dropWhile isDigitCh with
    | '.' :: r2 =>
      if 1 ≤ (r2.takeWhile isDigitCh).length then
        match r2.dropWhile isDigitCh with
        | '%' :: r4 => some (cs.takeWhile isDigitCh ++ '.' :: r2.takeWhile isDigitCh, r4)
        | _ => none
      else none
    | '%' :: r4 => some (cs.takeWhile isDigitCh, r4)
    | _ => none
  else none

/-- `[\d\.]+[KMG]?iB/s` anchored at the head of `cs`; returns the rate
group and the remainder. -/
def tryRate (cs : List Char) : Option (List Char × List Char) :=
  if 1 ≤ (cs.takeWhile isRateCh).length then
    match cs.dropWhile isRateCh with
    | 'K' :: 'i' :: 'B' :: '/' :: 's' :: r => some (cs.takeWhile isRateCh ++ ['K', 'i', 'B', '/', 's'], r)
    | 'M' :: 'i' :: 'B' :: '/' :: 's' :: r => some (cs.takeWhile isRateCh ++ ['M', 'i', 'B', '/', 's'], r)
    | 'G' :: 'i' :: 'B' :: '/' :: 's' :: r => some (cs.takeWhile isRateCh ++ ['G', 'i', 'B', '/', 's'], r)
    | 'i' :: 'B' :: '/' :: 's' :: r => some (cs.takeWhile isRateCh ++ ['i', 'B', '/', 's'], r)
    | _ => none
  else none

/-- `at\s+([\d\.]+[KMG]?iB/s)` anchored at the head of `cs`. -/
def tryAtRate (cs : List Char) : Option (List Char × List Char) :=
  match cs with
  | 'a' :: 't' :: r =>
    if 1 ≤ (r.takeWhile isPySpace).length then tryRate (r.dropWhile isPySpace)
    else none
  | _ => none

/-- `ETA\s+(\d{2}:\d{2})` anchored at the head of `cs`; returns the ETA group. -/
def tryEta (cs : List Char) : Option (List Char) :=
  match cs with
  | 'E' :: 'T' :: 'A' :: r =>
    if 1 ≤ (r.takeWhile isPySpace).length then
      match r.dropWhile isPySpace with
      | a :: b :: c :: d :: e :: _ =>
        if isDigitCh a && isDigitCh b && c == ':' && isDigitCh d && isDigitCh e then
          some [a, b, c, d, e]
        else none
      | _ => none
    else none
  | _ => none

/-- `.*?ETA\s+(\d{2}:\d{2})`: leftmost position where the ETA piece matches. -/
def findEta : List Char → Option (List Char)
  | [] => none
  | c :: r =>
    match tryEta (c :: r) with
    | some g => some g
    | none => findEta r

/-- `.*?at\s+([\d\.]+[KMG]?iB/s).*?ETA\s+(\d{2}:\d{2})`: leftmost
position where the rate piece matches and the remainder still contains
an ETA.  When the remainder after a candidate rate has no ETA, every
later candidate's remainder is a suffix of it and has none either, so
advancing the start position is exactly the engine's backtracking. -/
def findRateEta : List Char → Option (List Char × List Char)
  | [] => none
  | c :: r =>
    match tryAtRate (c :: r) with
    | some (g2, rest) =>
      match findEta rest with
      | some g3 => some (g2, g3)
      | none => findRateEta r
    | none => findRateEta r

/-- `.*?at\s+([\d\.]+[KMG]?iB/s)` with nothing after it: leftmost rate. -/
def findRateOnly : List Char → Option (List Char)
  | [] => none
  | c :: r =>
    match tryAtRate (c :: r) with
    | some (g, _) => some g
    | none => findRateOnly r

/-- `re.search` of the full pattern: leftmost start position from which
the whole pattern matches; returns the three groups. -/
def searchFull : List Char → Option (List Char × List Char × List Char)
  | [] => none
  | c :: r =>
    match matchPctAt (c :: r) with
    | some (g1, rest) =>
      match findRateEta rest with
      | some (g2, g3) => some (g1, g2, g3)
      | none => searchFull r
    | none => searchFull r

/-- `re.search` of the reduced pattern. -/
def searchReduced : List Char → Option (List Char × List Char)
  | [] => none
  | c :: r =>
    match matchPctAt (c :: r) with
    | some (g1, rest) =>
      match findRateOnly rest with
      | some g2 => some (g1, g2)
      | none => searchReduced r
    | none => searchReduced r

/-- Value of a digit string. -/
def digitsVal (ds : List Char) : Nat :=
  ds.foldl (fun a c => 10 * a + (c.toNat - 48)) 0

/-- Python `float()` on the matched numeric text (digits with at most
one decimal point), modelled exactly as a rational. -/
def decimalVal (g : List Char) : ℚ :=
  match g.dropWhile (fun c => c != '.') with
  | _ :: f =>
    (digitsVal (g.takeWhile (fun c => c != '.')) : ℚ) + (digitsVal f : ℚ) / (10 : ℚ) ^ f.length
  | [] => (digitsVal (g.takeWhile (fun c => c != '.')) : ℚ)

/-- `parse_progress_line` (app.py 43-51): full pattern first, then the
reduced one, else nothing. -/
def parse_progress_line (line : String) : Option (ℚ × String × Option String) :=
  match searchFull line.data with
  | some (g1, g2, g3) => some (decimalVal g1, String.mk g2, some (String.mk g3))
  | none =>
    match searchReduced line.data with
    | some (g1, g2) => some (decimalVal g1, String.mk g2, none)
    | none => none

/-! ### Destination announcements (app.py 101-104)

The worker updates the job's filename when a line contains
`"Destination:"` and `re.search(r"Destination:\s(.+)", line)` matches:
the token, one whitespace character, then at least one character; the
greedy `.+` takes everything to the end of the line (lines hold no
newline).  The membership test is implied by a regex match, so the
filename is updated exactly when the regex matches. -/

/-- `Destination:\s(.+)` anchored at the head of `cs`. -/
def tryDest (cs : List Char) : Option (List Char) :=
  match cs with
  | 'D' :: 'e' :: 's' :: 't' :: 'i' :: 'n' :: 'a' :: 't' :: 'i' :: 'o' :: 'n' :: ':' :: w :: rest =>
    if isPySpace w && !rest.isEmpty then some rest else none
  | _ => none

/-- `re.search(r"Destination:\s(.+)", line)`: leftmost match. -/
def findDest : List Char → Option (List Char)
  | [] => none
  | c :: r =>
    match tryDest (c :: r) with
    | some g => some g
    | none => findDest r

/-- `os.path.basename` on POSIX: the characters after the last `/`. -/
def basenameL (cs : List Char) : List Char :=
  ((cs.reverse.takeWhile (fun c => c != '/')).reverse)

/-! ### Data model (app.py 38, 82-88) -/

/-- The `"status"` sub-dictionary of a job. -/
structure Status where
  pct : ℚ
  speed : String
  eta : String
  text : String
deriving DecidableEq

/-- One entry of the `web_jobs` dictionary. -/
structure Job where
  status : Status
  filename : Option String
  done : Bool
  error : Option String
deriving DecidableEq

/-- The record inserted by the worker's first statement (app.py 83-88). -/
def initialJob : Job :=
  { status := { pct := 0, speed := "--", eta := "--", text := "Starting..." },
    filename := none, done := false, error := none }

/-- Python `eta or "--"`: `None` and the empty string are falsy. -/
def etaOr (e : Option String) : String :=
  match e with
  | some s => if s = "" then "--" else s
  | none => "--"

/-- Python truthiness of the `filename` field (`None` and `""` are falsy). -/
def falsyStr (o : Option String) : Bool :=
  match o with
  | none => true
  | some s => s == ""

/-- One iteration of the worker's line loop (app.py 91-104): strip the
raw line, store it (truncated to 160 characters) as the free-text
status, apply the progress parser, then the destination extraction. -/
def processLine (job : Job) (raw : String) : Job :=
  let line := pyStrip raw
  let job1 : Job := { job with status := { job.status with text := pyTake 160 line } }
  let job2 : Job :=
    match parse_progress_line line with
    | some (pct, speed, eta) =>
      { job1 with status := { job1.status with pct := pct, speed := speed, eta := etaOr eta } }
    | none => job1
  match findDest line.data with
  | some p => { job2 with filename := some (String.mk (basenameL p)) }
  | none => job2

/-! ### Command builder (app.py 17-35, 53-80)

`build_web_cmd` is pure except for a single `os.path.exists` probe for
`cookies.txt`, passed here as the boolean `cookieFileExists`.  The
output directory is fixed for the process's lifetime
(`os.getcwd() + "/web_downloader"`); it is modelled by the constant
below, whose exact text is irrelevant to every claim. -/

def WEB_DOWNLOADER_DIR : String := "web_downloader"

def QUALITY_MAP : List (String × String) :=
  [("144p (Low)", "144"), ("240p", "240"), ("360p", "360"), ("480p", "480"),
   ("720p", "720"), ("1080p", "1080"), ("1440p", "1440"), ("2160p (4K - High)", "2160")]

/-- Speed profile table: label to (concurrent fragments, chunk size). -/
def SPEED_MAP : List (String × String × String) :=
  [("Slow", "1", "1M"), ("Mid", "10", "1M"), ("High", "20", "5M"),
   ("Turbo", "40", "10M"), ("Superfast", "80", "20M")]

def build_web_cmd (url quality fmt cookies speed : String) (cookieFileExists : Bool) :
    List String :=
  let h := (QUALITY_MAP.lookup quality).getD "480"
  let s := (SPEED_MAP.lookup speed).getD ("40", "10M")
  let base :=
    if fmt = "MP4 - Video" then
      ["yt-dlp", "-f", "best[height<=" ++ h ++ "][ext=mp4]"]
    else
      ["yt-dlp", "-f", "bestaudio[ext=m4a]"]
  let cookie :=
    if cookies = "cookies.txt" ∧ cookieFileExists then ["--cookies", "cookies.txt"] else []
  let fast :=
    ["--concurrent-fragments", s.1, "--http-chunk-size", s.2,
     "--retries", "3", "--fragment-retries", "3", "--newline"]
  base ++ cookie ++ ["--no-playlist"] ++ fast ++
    ["-o", WEB_DOWNLOADER_DIR ++ "/%(title)s.%(ext)s", pyStrip url]

/-! ### Newest-file fallback (app.py 109-117)

After a zero exit with no captured filename the worker lists the
regular files of the shared directory and takes the most recently
modified one: `sorted(..., key=mtime, reverse=True)[0]`.  Python's sort
is stable and `reverse=True` keeps the original order of equal keys;
a stable insertion sort on (name, mtime) pairs models it. -/

def insertByMtime (x : String × Nat) : List (String × Nat) → List (String × Nat)
  | [] => [x]
  | y :: r => if y.2 < x.2 then x :: y :: r else y :: insertByMtime x r

def sortByMtimeDesc (l : List (String × Nat)) : List (String × Nat) :=
  l.foldl (fun acc x => insertByMtime x acc) []

def newestFile (listing : List (String × Nat)) : Option String :=
  (sortByMtimeDesc listing).head?.map (fun p => p.1)

/-! ### The worker (app.py 82-121)

The external process is an opaque collaborator; its observable
behaviour is an explicit input.  `ProcOutcome.ok lines exit scan` is a
run in which spawning succeeded, the merged output stream yielded
`lines`, the process exited with `exit`, and `scan` is what the
fallback directory listing would observe (`Except.error` when
`os.listdir`/`getmtime` raises there — possible, e.g., racing a
delayed deletion); `ProcOutcome.exn lines msg` is a run in which
spawning, reading or waiting raised after `lines` had been consumed.
The `try` block spans everything, and the handler records `str(e)` as
the job's error. -/

inductive ProcOutcome where
  | ok (lines : List String) (exit : Int) (scan : Except String (List (String × Nat)))
  | exn (lines : List String) (msg : String)

/-- Final job record produced by `web_download_worker` for a given
process behaviour (starting from the record its first statement
inserted). -/
def web_download_worker (proc : ProcOutcome) : Job :=
  match proc with
  | .ok lines exit scan =>
    let j := List.foldl processLine initialJob lines
    if exit = 0 then
      let j1 : Job := { j with done := true }
      if falsyStr j1.filename then
        match scan with
        | Except.ok listing =>
          match newestFile listing with
          | some f => { j1 with filename := some f }
          | none => j1
        | Except.error msg => { j1 with error := some msg }
      else j1
    else { j with error := some ("yt-dlp exited " ++ toString exit) }
  | .exn lines msg => { List.foldl processLine initialJob lines with error := some msg }

/-- The filename captured from the stream: base name of the last
destination announcement, if any. -/
def lastAnnounced (lines : List String) : Option String :=
  lines.foldl
    (fun acc raw =>
      match findDest (pyStrip raw).data with
      | some p => some (String.mk (basenameL p))
      | none => acc)
    none

/-! ### Job-state traces

Every intermediate registry value the worker writes for its job, in
program order: the initial record, the state after each processed
line, then each assignment of the finalization (`done := true`, the
fallback filename, or the error). -/

def traceLoop (job : Job) : List String → List Job
  | [] => []
  | l :: ls => processLine job l :: traceLoop (processLine job l) ls

def finalizeStates (job : Job) (exit : Int) (scan : Except String (List (String × Nat))) :
    List Job :=
  if exit = 0 then
    let j1 : Job := { job with done := true }
    if falsyStr j1.filename then
      match scan with
      | Except.ok listing =>
        match newestFile listing with
        | some f => [j1, { j1 with filename := some f }]
        | none => [j1]
      | Except.error msg => [j1, { j1 with error := some msg }]
    else [j1]
  else [{ job with error := some ("yt-dlp exited " ++ toString exit) }]

def workerTrace (proc : ProcOutcome) : List Job :=
  match proc with
  | .ok lines exit scan =>
    initialJob :: (traceLoop initialJob lines ++
      finalizeStates (List.foldl processLine initialJob lines) exit scan)
  | .exn lines msg =>
    initialJob :: (traceLoop initialJob lines ++
      [{ List.foldl processLine initialJob lines with error := some msg }])

/-- Runs on which the fallback scan, if reached, does not raise. -/
def scanOk : ProcOutcome → Prop
  | .ok _ _ (Except.error _) => False
  | _ => True

/-- One-step monotonicity of the terminal fields: `done` is never
unset and a recorded error is never changed. -/
def monoStep (a b : Job) : Prop :=
  (a.done = true → b.done = true) ∧ (∀ e, a.error = some e → b.error = some e)

/-! ### Registry and routes (app.py 38, 250-279)

`web_jobs` is a dictionary from job id to job record, modelled as an
association list queried by first match; fresh ids are never already
present, so prepending models insertion. -/

abbrev Registry := List (String × Job)

inductive DownloadResp where
  | ok (jobId : String)
  | err (msg : String) (code : Nat)
deriving DecidableEq

/-- `POST /download` (app.py 250-265).  Form fields arrive as optional
strings with the route's defaults; `jobId` models the freshly drawn
`uuid4().hex[:12]`.  The handler validates the URL, builds the
command, starts the worker thread and returns — it performs no write
to `web_jobs` itself, so the registry component is returned unchanged;
the third component is the spawned worker's binding (id, command), or
`none` when no thread was started. -/
def web_download (jobs : Registry) (url quality fmt cookies speed : Option String)
    (cookieFileExists : Bool) (jobId : String) :
    Registry × DownloadResp × Option (String × List String) :=
  let q := quality.getD "480p"
  let f := fmt.getD "MP4 - Video"
  let c := cookies.getD "none"
  let s := speed.getD "Turbo"
  match url with
  | none => (jobs, .err "Missing URL" 400, none)
  | some u =>
    if u = "" then (jobs, .err "Missing URL" 400, none)
    else (jobs, .ok jobId, some (jobId, build_web_cmd u q f c s cookieFileExists))

/-- The worker's first statement (app.py 83-88): insert the initial
record under its job id. -/
def worker_init (jobs : Registry) (jobId : String) : Registry :=
  (jobId, initialJob) :: jobs

inductive StatusResp where
  | clientErr (ok : Bool) (msg : String) (code : Nat)
  | okResp (snap : Status) (done : Bool) (filename : Option String) (error : Option String)
deriving DecidableEq

/-- `GET /status` (app.py 267-279): `request.args.get("job")` is `none`
when absent; `not job_id or job_id not in web_jobs` short-circuits, so
an empty id is rejected before the membership test. -/
def web_status (jobs : Registry) (jobParam : Option String) : StatusResp :=
  match jobParam with
  | none => .clientErr false "Invalid job" 400
  | some id =>
    if id = "" then .clientErr false "Invalid job" 400
    else
      match jobs.lookup id with
      | none => .clientErr false "Invalid job" 400
      | some j => .okResp j.status j.done j.filename j.error

/-! ### Fetch and delayed deletion (app.py 281-296)

Paths are lists of segments of the absolute POSIX path; the filesystem
is a partial map from resolved paths to the byte contents of regular
files.  `resolve` is the OS's lexical resolution of `.`, `..` and
empty segments (symbolic links are not modelled); `joinPath` is
`os.path.join`, which discards the directory when the argument is
absolute.  `send_from_directory` is Flask's: it refuses a filename
that is absolute or whose normalization climbs above the directory
(werkzeug `safe_join`), else serves the named regular file. -/

abbrev Path := List String

def resolveStep (acc : Path) (s : String) : Path :=
  if s = "" ∨ s = "." then acc
  else if s = ".." then acc.dropLast
  else acc ++ [s]

def resolve (p : Path) : Path := p.foldl resolveStep []

/-- Split on `/` (Python `str.split("/")`), accumulator-style. -/
def splitSlash : List Char → List Char → List String
  | [], acc => [String.mk acc.reverse]
  | '/' :: r, acc => String.mk acc.reverse :: splitSlash r []
  | c :: r, acc => splitSlash r (c :: acc)

def segsOf (s : String) : List String := splitSlash s.data []

/-- Absolute POSIX path (leading `/`). -/
def isAbsFn (fn : String) : Bool := fn.data.head? == some '/'

def joinPath (dir : Path) (fn : String) : Path :=
  if isAbsFn fn then segsOf fn else dir ++ segsOf fn

/-- Does lexically processing `segs`, starting `d` levels below some
root, ever climb above that root?  Equivalent to `posixpath.normpath`
of the joined string starting with `..` when `d = 0`. -/
def escapesB : List String → Nat → Bool
  | [], _ => false
  | s :: r, d =>
    if s = "" ∨ s = "." then escapesB r d
    else if s = ".." then (if d = 0 then true else escapesB r (d - 1))
    else escapesB r (d + 1)

/-- werkzeug `safe_join` acceptance: not absolute and never climbing
above the base directory. -/
def safe_join_ok (fn : String) : Bool :=
  !(isAbsFn fn) && !(escapesB (segsOf fn) 0)

inductive FetchResp where
  | notFound (code : Nat)
  | file (content : List Nat)
deriving DecidableEq

/-- Flask `send_from_directory dir fn` over the filesystem `fs`. -/
def send_from_directory (fs : Path → Option (List Nat)) (dir : Path) (fn : String) :
    FetchResp :=
  if safe_join_ok fn then
    match fs (resolve (dir ++ segsOf fn)) with
    | some c => .file c
    | none => .notFound 404
  else .notFound 404

/-- `GET /fetch/<path:filename>` (app.py 281-296): join, existence
check on the joined path, then schedule `delayed_delete` of that very
path with the 10-unit grace delay, then hand off to
`send_from_directory`.  The result is the response paired with the
scheduled deletion (path, delay), if any. -/
def web_fetch (fs : Path → Option (List Nat)) (dir : Path) (fn : String) :
    FetchResp × Option (Path × Nat) :=
  let full := resolve (joinPath dir fn)
  if (fs full).isSome then
    (send_from_directory fs dir fn, some (full, 10))
  else (.notFound 404, none)

/-- `delayed_delete` (app.py 288-293): after the grace delay, remove
the path; `os.remove` failures are swallowed, so the resulting
filesystem is total and differs from `fs` at most at `p`. -/
def delayed_delete (fs : Path → Option (List Nat)) (p : Path) : Path → Option (List Nat) :=
  fun q => if q = p then none else fs q

/-- Normalized directory: no empty, `.` or `..` segments (true of the
managed output directory, an absolute canonical path). -/
def dirOK (dir : Path) : Prop := ∀ s ∈ dir, s ≠ "" ∧ s ≠ "." ∧ s ≠ ".."

/-- `a` occurs contiguously inside `b`. -/
def listWithin (a b : List Char) : Prop := ∃ p s, b = p ++ (a ++ s)

/-- `\d{2}:\d{2}` shape. -/
def isMMSS (g : List Char) : Bool :=
  match g with
  | [a, b, c, d, e] => isDigitCh a && isDigitCh b && c == ':' && isDigitCh d && isDigitCh e
  | _ => false

/-- Sample filesystem with one regular file `/srv/secret` outside the
managed directory `/srv/web_downloader`, used by concrete instances. -/
def fsOutside : Path → Option (List Nat) :=
  fun p => if p = ["srv", "secret"] then some [7, 7, 7] else none

/-! ### Lemmas about the line loop -/

theorem processLine_done (job : Job) (raw : String) :
    (processLine job raw).done = job.done := by
  simp only [processLine]
  split <;> split <;> rfl

theorem processLine_error (job : Job) (raw : String) :
    (processLine job raw).error = job.error := by
  simp only [processLine]
  split <;> split <;> rfl

theorem processLine_filename (job : Job) (raw : String) :
    (processLine job raw).filename =
      (match findDest (pyStrip raw).data with
       | some p => some (String.mk (basenameL p))
       | none => job.filename) := by
  simp only [processLine]
  split <;> split <;> rfl

theorem runLoop_done (lines : List String) :
    ∀ job : Job, (List.foldl processLine job lines).done = job.done := by
  induction lines with
  | nil => intro job; rfl
  | cons l ls ih => intro job; rw [List.foldl_cons, ih, processLine_done]

theorem runLoop_error (lines : List String) :
    ∀ job : Job, (List.foldl processLine job lines).error = job.error := by
  induction lines with
  | nil => intro job; rfl
  | cons l ls ih => intro job; rw [List.foldl_cons, ih, processLine_error]

theorem runLoop_filename (lines : List String) :
    ∀ job : Job, (List.foldl processLine job lines).filename =
      (lines.foldl
        (fun acc raw =>
          match findDest (pyStrip raw).data with
          | some p => some (String.mk (basenameL p))
          | none => acc)
        job.filename) := by
  induction lines with
  | nil => intro job; rfl
  | cons l ls ih =>
    intro job
    rw [List.foldl_cons, List.foldl_cons, ih]
    congr 1
    rw [processLine_filename]

theorem runLoop_filename_init (lines : List String) :
    (List.foldl processLine initialJob lines).filename = lastAnnounced lines := by
  rw [runLoop_filename]; rfl

/-! ### Lemmas about the job-state trace -/

theorem traceLoop_flags (ls : List String) :
    ∀ job : Job, ∀ j ∈ traceLoop job ls, j.done = job.done ∧ j.error = job.error := by
  induction ls with
  | nil => intro job j hj; simp [traceLoop] at hj
  | cons l ls ih =>
    intro job j hj
    rcases List.mem_cons.mp hj with h | h
    · subst h; exact ⟨processLine_done job l, processLine_error job l⟩
    · obtain ⟨h1, h2⟩ := ih (processLine job l) j h
      rw [h1, h2, processLine_done, processLine_error]
      exact ⟨rfl, rfl⟩

theorem traceLoop_chain (ls : List String) :
    ∀ job : Job, List.Chain' monoStep (job :: traceLoop job ls) := by
  induction ls with
  | nil => intro job; simp [traceLoop]
  | cons l ls ih =>
    intro job
    refine List.Chain'.cons ?_ (ih (processLine job l))
    constructor
    · intro h; rw [processLine_done]; exact h
    · intro e h; rw [processLine_error]; exact h

theorem traceLoop_last (ls : List String) :
    ∀ job : Job, (job :: traceLoop job ls).getLast? = some (List.foldl processLine job ls) := by
  induction ls with
  | nil => intro job; rfl
  | cons l ls ih =>
    intro job
    rw [List.foldl_cons]
    calc (job :: traceLoop job (l :: ls)).getLast?
        = (processLine job l :: traceLoop (processLine job l) ls).getLast? := by
          simp [traceLoop, List.getLast?_cons_cons]
      _ = some (List.foldl processLine (processLine job l) ls) := ih (processLine job l)

theorem runLoop_flags (lines : List String) :
    (List.foldl processLine initialJob lines).done = false ∧
    (List.foldl processLine initialJob lines).error = none := by
  rw [runLoop_done, runLoop_error]
  exact ⟨rfl, rfl⟩

theorem finalizeStates_chain (job : Job) (exit : Int)
    (scan : Except String (List (String × Nat))) (herr : job.error = none) :
    List.Chain' monoStep (finalizeStates job exit scan) := by
  by_cases hexit : exit = 0
  · by_cases hf : falsyStr job.filename = true
    · cases scan with
      | ok listing =>
        cases hnf : newestFile listing with
        | some f =>
          simp only [finalizeStates, hexit, hf, hnf, if_true, if_pos]
          refine List.chain'_pair.mpr ?_
          exact ⟨fun h => h, fun e he => he⟩
        | none => simp [finalizeStates, hexit, hf, hnf]
      | error msg =>
        simp only [finalizeStates, hexit, hf, if_true, if_pos]
        refine List.chain'_pair.mpr ?_
        refine ⟨fun h => h, fun e he => ?_⟩
        rw [show ({ job with done := true } : Job).error = job.error from rfl, herr] at he
        exact absurd he (by simp)
    · simp [finalizeStates, hexit, hf]
  · simp [finalizeStates, hexit]

theorem finalizeStates_head_mono (job : Job) (exit : Int)
    (scan : Except String (List (String × Nat))) (herr : job.error = none) :
    ∀ y ∈ (finalizeStates job exit scan).head?, monoStep job y := by
  by_cases hexit : exit = 0
  · by_cases hf : falsyStr job.filename = true
    · cases scan with
      | ok listing =>
        cases hnf : newestFile listing with
        | some f =>
          intro y hy
          simp only [finalizeStates, hexit, hf, hnf, if_true, if_pos,
            List.head?_cons, Option.mem_def, Option.some.injEq] at hy
          subst hy
          exact ⟨fun _ => rfl, fun e he => he⟩
        | none =>
          intro y hy
          simp only [finalizeStates, hexit, hf, hnf, if_true, if_pos,
            List.head?_cons, Option.mem_def, Option.some.injEq] at hy
          subst hy
          exact ⟨fun _ => rfl, fun e he => he⟩
      | error msg =>
        intro y hy
        simp only [finalizeStates, hexit, hf, if_true, if_pos,
          List.head?_cons, Option.mem_def, Option.some.injEq] at hy
        subst hy
        exact ⟨fun _ => rfl, fun e he => he⟩
    · intro y hy
      simp [finalizeStates, hexit, hf] at hy
      subst hy
      exact ⟨fun _ => rfl, fun e he => he⟩
  · intro y hy
    simp [finalizeStates, hexit] at hy
    subst hy
    refine ⟨fun h => h, fun e he => ?_⟩
    rw [herr] at he
    exact absurd he (by simp)

theorem workerTrace_chain (proc : ProcOutcome) :
    List.Chain' monoStep (workerTrace proc) := by
  match proc with
  | ProcOutcome.ok lines exit scan =>
    show List.Chain' monoStep
      (initialJob :: (traceLoop initialJob lines ++
        finalizeStates (List.foldl processLine initialJob lines) exit scan))
    rw [← List.cons_append]
    refine List.Chain'.append (traceLoop_chain lines initialJob)
      (finalizeStates_chain _ exit scan (runLoop_flags lines).2) ?_
    intro x hx y hy
    rw [traceLoop_last lines initialJob] at hx
    simp only [Option.mem_def, Option.some.injEq] at hx
    subst hx
    exact finalizeStates_head_mono _ exit scan (runLoop_flags lines).2 y hy
  | ProcOutcome.exn lines msg =>
    show List.Chain' monoStep
      (initialJob :: (traceLoop initialJob lines ++
        [{ List.foldl processLine initialJob lines with error := some msg }]))
    rw [← List.cons_append]
    refine List.Chain'.append (traceLoop_chain lines initialJob) (by simp) ?_
    intro x hx y hy
    rw [traceLoop_last lines initialJob] at hx
    simp only [Option.mem_def, Option.some.injEq] at hx
    subst hx
    simp only [List.head?_cons, Option.mem_def, Option.some.injEq] at hy
    subst hy
    refine ⟨fun h => h, fun e he => ?_⟩
    rw [(runLoop_flags lines).2] at he
    exact absurd he (by simp)

theorem finalizeStates_excl (job : Job) (exit : Int)
    (scan : Except String (List (String × Nat)))
    (hdone : job.done = false) (herr : job.error = none)
    (hscan : ∀ m, scan ≠ Except.error m) :
    ∀ j ∈ finalizeStates job exit scan, ¬(j.done = true ∧ j.error ≠ none) := by
  by_cases hexit : exit = 0
  · by_cases hf : falsyStr job.filename = true
    · cases scan with
      | ok listing =>
        cases hnf : newestFile listing with
        | some f =>
          intro j hj
          simp only [finalizeStates, hexit, hf, hnf, if_true, if_pos] at hj
          rcases List.mem_cons.mp hj with h | h
          · subst h; intro hc; exact hc.2 (by simp [herr])
          · rcases List.mem_singleton.mp h with rfl
            intro hc; exact hc.2 (by simp [herr])
        | none =>
          intro j hj
          simp only [finalizeStates, hexit, hf, hnf, if_true, if_pos] at hj
          rcases List.mem_singleton.mp hj with rfl
          intro hc; exact hc.2 (by simp [herr])
      | error msg => exact absurd rfl (hscan msg)
    · intro j hj
      simp [finalizeStates, hexit, hf] at hj
      subst hj
      intro hc; exact hc.2 (by simp [herr])
  · intro j hj
    simp [finalizeStates, hexit] at hj
    subst hj
    intro hc
    exact absurd hc.1 (by simp [hdone])

/-! ### Lemmas about the pattern matchers -/

theorem within_cons (a : List Char) (c : Char) (b : List Char) :
    listWithin a b → listWithin a (c :: b) := by
  rintro ⟨p, s, rfl⟩
  exact ⟨c :: p, s, rfl⟩

theorem matchPctAt_decomp (cs g1 rest : List Char) (h : matchPctAt cs = some (g1, rest)) :
    cs = g1 ++ '%' :: rest := by
  unfold matchPctAt at h
  split at h
  · split at h
    · rename_i r2 hd
      split at h
      · split at h
        · rename_i r4 hr
          injection h with h'
          injection h' with h1 h2
          subst h1; subst h2
          have hr2 : r2 = r2.takeWhile isDigitCh ++ '%' :: r4 := by
            conv_lhs => rw [← List.takeWhile_append_dropWhile isDigitCh r2]
            rw [hr]
          calc cs = cs.takeWhile isDigitCh ++ '.' :: r2 := by
                rw [← hd, List.takeWhile_append_dropWhile]
            _ = cs.takeWhile isDigitCh ++ '.' :: (r2.takeWhile isDigitCh ++ '%' :: r4) := by
                rw [← hr2]
            _ = (cs.takeWhile isDigitCh ++ '.' :: r2.takeWhile isDigitCh) ++ '%' :: r4 := by
                simp
        · exact absurd h (by simp)
      · exact absurd h (by simp)
    · rename_i r4 hd
      injection h with h'
      injection h' with h1 h2
      subst h1; subst h2
      conv_lhs => rw [← List.takeWhile_append_dropWhile isDigitCh cs]
      rw [hd]
    · exact absurd h (by simp)
  · exact absurd h (by simp)

theorem tryRate_decomp (cs g r : List Char) (h : tryRate cs = some (g, r)) :
    cs = g ++ r := by
  unfold tryRate at h
  split at h
  · split at h
    all_goals first
      | exact Option.noConfusion h
      | (rename_i r' hd
         injection h with h'
         injection h' with h1 h2
         subst h1; subst h2
         conv_lhs => rw [← List.takeWhile_append_dropWhile isRateCh cs]
         rw [hd]
         simp)
  · exact Option.noConfusion h

theorem tryAtRate_decomp (cs g rest : List Char) (h : tryAtRate cs = some (g, rest)) :
    ∃ pre, cs = pre ++ (g ++ rest) := by
  unfold tryAtRate at h
  split at h
  · rename_i r
    split at h
    · refine ⟨'a' :: 't' :: r.takeWhile isPySpace, ?_⟩
      have := tryRate_decomp _ _ _ h
      calc 'a' :: 't' :: r
          = 'a' :: 't' :: (r.takeWhile isPySpace ++ r.dropWhile isPySpace) := by
            rw [List.takeWhile_append_dropWhile]
        _ = 'a' :: 't' :: (r.takeWhile isPySpace ++ (g ++ rest)) := by rw [← this]
        _ = ('a' :: 't' :: r.takeWhile isPySpace) ++ (g ++ rest) := by simp
    · exact absurd h (by simp)
  · exact absurd h (by simp)

theorem tryEta_shape (cs g : List Char) (h : tryEta cs = some g) : isMMSS g = true := by
  unfold tryEta at h
  split at h
  · split at h
    · split at h
      · split at h
        · rename_i hcond
          injection h with h'
          subst h'
          simpa [isMMSS] using hcond
        · exact absurd h (by simp)
      · exact absurd h (by simp)
    · exact absurd h (by simp)
  · exact absurd h (by simp)

theorem findEta_shape (cs : List Char) :
    ∀ g, findEta cs = some g → isMMSS g = true := by
  induction cs with
  | nil => intro g h; exact absurd h (by simp [findEta])
  | cons c r ih =>
    intro g h
    simp only [findEta] at h
    cases ht : tryEta (c :: r) with
    | some g' =>
      rw [ht] at h
      injection h with h'
      subst h'
      exact tryEta_shape _ _ ht
    | none =>
      rw [ht] at h
      exact ih g h

theorem findRateEta_props (cs : List Char) :
    ∀ g2 g3, findRateEta cs = some (g2, g3) → listWithin g2 cs ∧ isMMSS g3 = true := by
  induction cs with
  | nil => intro g2 g3 h; exact absurd h (by simp [findRateEta])
  | cons c r ih =>
    intro g2 g3 h
    simp only [findRateEta] at h
    cases h1 : tryAtRate (c :: r) with
    | some pr =>
      obtain ⟨g', rest⟩ := pr
      simp only [h1] at h
      cases h2 : findEta rest with
      | some g3' =>
        simp only [h2, Option.some.injEq, Prod.mk.injEq] at h
        obtain ⟨ha, hb⟩ := h
        subst ha; subst hb
        obtain ⟨pre, hpre⟩ := tryAtRate_decomp _ _ _ h1
        exact ⟨⟨pre, rest, hpre⟩, findEta_shape rest _ h2⟩
      | none =>
        simp only [h2] at h
        obtain ⟨hw, hm⟩ := ih g2 g3 h
        exact ⟨within_cons _ c _ hw, hm⟩
    | none =>
      simp only [h1] at h
      obtain ⟨hw, hm⟩ := ih g2 g3 h
      exact ⟨within_cons _ c _ hw, hm⟩

theorem searchFull_props (cs : List Char) :
    ∀ g1 g2 g3, searchFull cs = some (g1, g2, g3) →
      listWithin g2 cs ∧ isMMSS g3 = true := by
  induction cs with
  | nil => intro g1 g2 g3 h; exact absurd h (by simp [searchFull])
  | cons c r ih =>
    intro g1 g2 g3 h
    simp only [searchFull] at h
    cases h1 : matchPctAt (c :: r) with
    | some pr =>
      obtain ⟨g1', rest⟩ := pr
      simp only [h1] at h
      cases h2 : findRateEta rest with
      | some pr2 =>
        obtain ⟨g2', g3'⟩ := pr2
        simp only [h2, Option.some.injEq, Prod.mk.injEq] at h
        obtain ⟨ha, hb, hc⟩ := h
        obtain ⟨⟨p, s, hps⟩, hm⟩ := findRateEta_props rest g2' g3' h2
        refine ⟨⟨g1' ++ '%' :: p, s, ?_⟩, hc ▸ hm⟩
        rw [← hb, matchPctAt_decomp _ _ _ h1, hps]
        simp
      | none =>
        simp only [h2] at h
        obtain ⟨hw, hm⟩ := ih g1 g2 g3 h
        exact ⟨within_cons _ c _ hw, hm⟩
    | none =>
      simp only [h1] at h
      obtain ⟨hw, hm⟩ := ih g1 g2 g3 h
      exact ⟨within_cons _ c _ hw, hm⟩

theorem takeWhile_all_append (p : Char → Bool) :
    ∀ (l1 : List Char) (x : Char) (l2 : List Char),
      (∀ c ∈ l1, p c = true) → p x = false → (l1 ++ x :: l2).takeWhile p = l1 := by
  intro l1
  induction l1 with
  | nil => intro x l2 _ hx; simp [hx]
  | cons a l ih =>
    intro x l2 hall hx
    have ha : p a = true := hall a (List.mem_cons_self a l)
    rw [List.cons_append, List.takeWhile_cons_of_pos ha,
      ih x l2 (fun c hc => hall c (List.mem_cons_of_mem a hc)) hx]

/-- `os.path.basename` strips every leading directory component,
whatever the depth. -/
theorem basenameL_depth (pre name : List Char) (h : ∀ c ∈ name, (c != '/') = true) :
    basenameL (pre ++ '/' :: name) = name := by
  unfold basenameL
  have h1 : (pre ++ '/' :: name).reverse = name.reverse ++ '/' :: pre.reverse := by
    simp
  rw [h1, takeWhile_all_append _ name.reverse '/' pre.reverse
    (fun c hc => h c (List.mem_reverse.mp hc)) (by decide), List.reverse_reverse]

/-- Every intermediate state of the worker, and the agreement of the
final trace entry with `web_download_worker`. -/
theorem finalizeStates_ne_nil (job : Job) (exit : Int)
    (scan : Except String (List (String × Nat))) :
    finalizeStates job exit scan ≠ [] := by
  by_cases hexit : exit = 0
  · by_cases hf : falsyStr job.filename = true
    · cases scan with
      | ok listing =>
        cases hnf : newestFile listing with
        | some f => simp [finalizeStates, hexit, hf, hnf]
        | none => simp [finalizeStates, hexit, hf, hnf]
      | error msg => simp [finalizeStates, hexit, hf]
    · simp [finalizeStates, hexit, hf]
  · simp [finalizeStates, hexit]

theorem worker_eq_trace_last (proc : ProcOutcome) :
    (workerTrace proc).getLast? = some (web_download_worker proc) := by
  match proc with
  | ProcOutcome.ok lines exit scan =>
    show (initialJob :: (traceLoop initialJob lines ++
      finalizeStates (List.foldl processLine initialJob lines) exit scan)).getLast? = _
    rw [← List.cons_append,
      List.getLast?_append_of_ne_nil _ (finalizeStates_ne_nil _ exit scan)]
    by_cases hexit : exit = 0
    · by_cases hf : falsyStr (List.foldl processLine initialJob lines).filename = true
      · cases scan with
        | ok listing =>
          cases hnf : newestFile listing with
          | some f => simp [finalizeStates, web_download_worker, hexit, hf, hnf]
          | none => simp [finalizeStates, web_download_worker, hexit, hf, hnf]
        | error msg => simp [finalizeStates, web_download_worker, hexit, hf]
      · simp [finalizeStates, web_download_worker, hexit, hf]
    · simp [finalizeStates, web_download_worker, hexit]
  | ProcOutcome.exn lines msg =>
    show (initialJob :: (traceLoop initialJob lines ++
      [{ List.foldl processLine initialJob lines with error := some msg }])).getLast? = _
    rw [← List.cons_append, List.getLast?_append_of_ne_nil _ (by simp)]
    rfl

/-! ### Lemmas about path resolution -/

theorem dropLast_append_ne (base : List String) :
    ∀ ext : List String, ext ≠ [] → (base ++ ext).dropLast = base ++ ext.dropLast := by
  induction base with
  | nil => intro ext h; rfl
  | cons b bs ih =>
    intro ext h
    have h2 : bs ++ ext ≠ [] := by
      intro hc
      exact h (List.append_eq_nil.mp hc).2
    cases hbe : bs ++ ext with
    | nil => exact absurd hbe h2
    | cons x xs =>
      show (b :: (bs ++ ext)).dropLast = (b :: bs) ++ ext.dropLast
      rw [hbe, List.dropLast_cons₂, ← hbe, ih ext h, List.cons_append]

theorem resolve_normal (dir : Path) (hdir : dirOK dir) :
    ∀ acc : Path, List.foldl resolveStep acc dir = acc ++ dir := by
  induction dir with
  | nil => intro acc; simp [resolve]
  | cons s r ih =>
    intro acc
    obtain ⟨h1, h2, h3⟩ := hdir s (List.mem_cons_self s r)
    have hdir' : dirOK r := fun t ht => hdir t (List.mem_cons_of_mem s ht)
    rw [List.foldl_cons]
    rw [show resolveStep acc s = acc ++ [s] by simp [resolveStep, h1, h2, h3]]
    rw [ih hdir' (acc ++ [s])]
    simp

theorem resolve_no_escape :
    ∀ (segs : List String) (base ext : Path), escapesB segs ext.length = false →
      ∃ ext2 : Path, List.foldl resolveStep (base ++ ext) segs = base ++ ext2 := by
  intro segs
  induction segs with
  | nil => intro base ext _; exact ⟨ext, rfl⟩
  | cons s r ih =>
    intro base ext h
    by_cases h1 : s = "" ∨ s = "."
    · rw [List.foldl_cons, show resolveStep (base ++ ext) s = base ++ ext by
        simp [resolveStep, h1]]
      exact ih base ext (by simpa [escapesB, h1] using h)
    · by_cases h2 : s = ".."
      · have hlen : ext.length ≠ 0 := by
          intro h0
          rw [escapesB, if_neg h1, if_pos h2, h0, if_pos rfl] at h
          exact Bool.true_eq_false.mp h
        have hne : ext ≠ [] := fun hc => hlen (by rw [hc]; rfl)
        rw [List.foldl_cons, show resolveStep (base ++ ext) s = (base ++ ext).dropLast by
          simp [resolveStep, h1, h2]]
        rw [dropLast_append_ne base ext hne]
        refine ih base ext.dropLast ?_
        rw [List.length_dropLast]
        have := h
        rw [escapesB, if_neg h1, if_pos h2, if_neg hlen] at this
        exact this
      · rw [List.foldl_cons, show resolveStep (base ++ ext) s = base ++ (ext ++ [s]) by
          simp [resolveStep, h1, h2]]
        refine ih base (ext ++ [s]) ?_
        rw [List.length_append]
        have := h
        rw [escapesB, if_neg h1, if_neg h2] at this
        simpa using this

/-- When `safe_join_ok` accepts a filename, the joined path resolves
inside the managed directory. -/
theorem safe_join_within (dir : Path) (fn : String) (hdir : dirOK dir)
    (h : safe_join_ok fn = true) :
    ∃ ext2 : Path, resolve (joinPath dir fn) = dir ++ ext2 := by
  have habs : isAbsFn fn = false := by
    cases hb : isAbsFn fn with
    | false => rfl
    | true => rw [safe_join_ok, hb] at h; exact absurd h (by simp)
  have hesc : escapesB (segsOf fn) 0 = false := by
    cases hb : escapesB (segsOf fn) 0 with
    | false => rfl
    | true => rw [safe_join_ok, hb] at h; exact absurd h (by simp)
  rw [joinPath, habs]
  simp only [Bool.false_eq_true, if_false]
  rw [resolve, List.foldl_append, resolve_normal dir hdir []]
  simpa using resolve_no_escape (segsOf fn) dir [] (by simpa using hesc)

theorem workerTrace_excl (proc : ProcOutcome) (h : scanOk proc) :
    ∀ j ∈ workerTrace proc, ¬(j.done = true ∧ j.error ≠ none) := by
  match proc with
  | ProcOutcome.ok lines exit scan =>
    intro j hj
    rcases List.mem_cons.mp hj with rfl | hj
    · intro hc; exact absurd hc.1 (by simp [initialJob])
    · rcases List.mem_append.mp hj with hj | hj
      · obtain ⟨h1, _⟩ := traceLoop_flags lines initialJob j hj
        intro hc
        exact absurd (h1 ▸ hc.1) (by simp [initialJob])
      · refine finalizeStates_excl _ exit scan (runLoop_flags lines).1
          (runLoop_flags lines).2 ?_ j hj
        intro m hm
        subst hm
        exact h
  | ProcOutcome.exn lines msg =>
    intro j hj
    rcases List.mem_cons.mp hj with rfl | hj
    · intro hc; exact absurd hc.1 (by simp [initialJob])
    · rcases List.mem_append.mp hj with hj | hj
      · obtain ⟨h1, _⟩ := traceLoop_flags lines initialJob j hj
        intro hc
        exact absurd (h1 ▸ hc.1) (by simp [initialJob])
      · rcases List.mem_singleton.mp hj with rfl
        intro hc
        have : (List.foldl processLine initialJob lines).done = false := (runLoop_flags lines).1
        exact absurd hc.1 (by simp [this])

/-! ## Claim theorems -/

/-- C1, counterexample.  The claim says `submit` inserts the initial
job record into the registry before returning the job id, so a status
query with the returned id finds the job at any time after submission.
In the code the insertion is the first statement of the worker thread
(app.py 83-88), not of the route (app.py 250-265): on the schedule in
which the status query runs before the spawned thread's first
statement, the registry is still empty.  Concretely: submitting on an
empty registry returns `ok` with the job id and an unchanged (empty)
registry, and a status query for that very id then answers with the
client error, not with the job. -/
theorem C1_counterexample :
    (web_download [] (some "http://example") none none none none false "abc123def456").1 = [] ∧
    (web_download [] (some "http://example") none none none none false "abc123def456").2.1 =
      DownloadResp.ok "abc123def456" ∧
    web_status
      (web_download [] (some "http://example") none none none none false "abc123def456").1
      (some "abc123def456") = StatusResp.clientErr false "Invalid job" 400 :=
  ⟨rfl, rfl, rfl⟩

/-- C1, amended.  `submit` itself returns the fresh id without
touching the registry; the initial record (0% progress, placeholder
text, no filename, not done, no error) is inserted by the runner
thread as its first action, so a status query may get a not-found
answer until that insertion has happened; any query issued after the
runner's insertion finds exactly that initial record. -/
theorem C1_amended_insertion (jobs : Registry) (id : String) (h : id ≠ "") :
    (worker_init jobs id).lookup id = some initialJob ∧
    web_status (worker_init jobs id) (some id) =
      StatusResp.okResp { pct := 0, speed := "--", eta := "--", text := "Starting..." }
        false none none := by
  have hl : (worker_init jobs id).lookup id = some initialJob := by
    simp [worker_init, List.lookup]
  refine ⟨hl, ?_⟩
  simp [web_status, h, hl, initialJob]

theorem C1_amended_witness :
    (worker_init [] "abc123def456").lookup "abc123def456" = some initialJob ∧
    web_status (worker_init [] "abc123def456") (some "abc123def456") =
      StatusResp.okResp { pct := 0, speed := "--", eta := "--", text := "Starting..." }
        false none none :=
  C1_amended_insertion [] "abc123def456" (by decide)

/-- C2, counterexample.  The claim says a traversal filename never
gets any deletion scheduled outside the managed directory.  The code
(app.py 281-296) joins the raw filename, checks existence of the
joined path and schedules `delayed_delete` of it before
`send_from_directory` performs its containment check: fetching
`../secret` when `/srv/secret` exists schedules deletion of
`/srv/secret`, a path outside the managed directory (the response is
still not-found). -/
theorem C2_counterexample :
    (web_fetch fsOutside ["srv", "web_downloader"] "../secret").2 =
      some (["srv", "secret"], 10) ∧
    (∀ rest : Path, ["srv", "secret"] ≠ ["srv", "web_downloader"] ++ rest) ∧
    (web_fetch fsOutside ["srv", "web_downloader"] "../secret").1 =
      FetchResp.notFound 404 := by
  refine ⟨by decide, ?_, by decide⟩
  intro rest h
  injection h with h1 h2
  injection h2 with h3 h4
  exact absurd h3 (by decide)

/-- C2, amended.  A filename whose resolution escapes the managed
directory always yields the not-found response and never any byte
content (so no bytes from outside the directory are served), but the
code still schedules deletion of the escaped resolved path whenever
that path exists; when the escaped target does not exist, no deletion
is scheduled. -/
theorem C2_amended_traversal (fs : Path → Option (List Nat)) (dir : Path) (fn : String)
    (hdir : dirOK dir)
    (hesc : ∀ rest : Path, resolve (joinPath dir fn) ≠ dir ++ rest) :
    (web_fetch fs dir fn).1 = FetchResp.notFound 404 ∧
    (web_fetch fs dir fn).2 =
      (if (fs (resolve (joinPath dir fn))).isSome then some (resolve (joinPath dir fn), 10)
       else none) := by
  have hsafe : safe_join_ok fn = false := by
    cases hb : safe_join_ok fn with
    | false => rfl
    | true =>
      obtain ⟨ext2, hext⟩ := safe_join_within dir fn hdir hb
      exact absurd hext (hesc ext2)
  constructor
  · simp only [web_fetch]
    by_cases hex : (fs (resolve (joinPath dir fn))).isSome = true
    · simp only [hex, if_true]
      show send_from_directory fs dir fn = FetchResp.notFound 404
      simp only [send_from_directory, hsafe]
      simp
    · simp [hex]
  · simp only [web_fetch]
    by_cases hex : (fs (resolve (joinPath dir fn))).isSome = true <;> simp [hex]

theorem C2_amended_witness :
    dirOK ["srv", "web_downloader"] ∧
    (web_fetch fsOutside ["srv", "web_downloader"] "/srv/secret").1 =
      FetchResp.notFound 404 ∧
    (web_fetch fsOutside ["srv", "web_downloader"] "/srv/secret").2 =
      (if (fsOutside (resolve (joinPath ["srv", "web_downloader"] "/srv/secret"))).isSome
       then some (resolve (joinPath ["srv", "web_downloader"] "/srv/secret"), 10)
       else none) := by
  have hesc : ∀ rest : Path,
      resolve (joinPath ["srv", "web_downloader"] "/srv/secret") ≠
        ["srv", "web_downloader"] ++ rest := by
    intro rest h
    rw [show resolve (joinPath ["srv", "web_downloader"] "/srv/secret") = ["srv", "secret"]
      from rfl] at h
    injection h with h1 h2
    injection h2 with h3 h4
    exact absurd h3 (by decide)
  have h := C2_amended_traversal fsOutside ["srv", "web_downloader"] "/srv/secret"
    (by unfold dirOK; decide) hesc
  exact ⟨by unfold dirOK; decide, h.1, h.2⟩

/-- C3, counterexample.  The claim says a zero exit code always ends
the job with `done=true` and `error=null`.  When no destination line
was seen, the worker (app.py 106-121) sets `done` and then runs the
newest-file fallback scan inside the same `try`; if that scan raises
(`os.listdir`/`getmtime` can, e.g. racing a delayed deletion), the
handler records the exception: the job ends `done=true` with a
non-null error. -/
theorem C3_counterexample :
    (web_download_worker (ProcOutcome.ok [] 0 (Except.error "listing failed"))).done = true ∧
    (web_download_worker (ProcOutcome.ok [] 0 (Except.error "listing failed"))).error =
      some "listing failed" :=
  ⟨rfl, rfl⟩

/-- C3, amended.  For a successfully launched process: with exit code
0 and a (nonempty) announced destination, the job ends `done=true`,
`error=null`, `filename` = base name of the last announcement; with
exit 0 and no raising fallback scan, `done=true` and `error=null` in
every case; with exit 0, no announcement and a raising scan,
`done=true` but `error` is the exception text; with a non-zero exit,
`done=false` and the error records the exit code (`"yt-dlp exited "`
followed by the code); and a supervision exception (spawn, read or
wait) leaves the job not-done with the exception text as error. -/
theorem C3_amended_terminal_states :
    ∀ (lines : List String) (exit : Int) (scan : Except String (List (String × Nat)))
      (msg f : String),
      ((exit = 0 ∧ lastAnnounced lines = some f ∧ f ≠ "") →
        (web_download_worker (ProcOutcome.ok lines exit scan)).done = true ∧
        (web_download_worker (ProcOutcome.ok lines exit scan)).error = none ∧
        (web_download_worker (ProcOutcome.ok lines exit scan)).filename = some f) ∧
      ((exit = 0 ∧ (∀ m, scan ≠ Except.error m)) →
        (web_download_worker (ProcOutcome.ok lines exit scan)).done = true ∧
        (web_download_worker (ProcOutcome.ok lines exit scan)).error = none) ∧
      ((exit = 0 ∧ lastAnnounced lines = none ∧ scan = Except.error msg) →
        (web_download_worker (ProcOutcome.ok lines exit scan)).done = true ∧
        (web_download_worker (ProcOutcome.ok lines exit scan)).error = some msg) ∧
      (exit ≠ 0 →
        (web_download_worker (ProcOutcome.ok lines exit scan)).done = false ∧
        (web_download_worker (ProcOutcome.ok lines exit scan)).error =
          some ("yt-dlp exited " ++ toString exit)) ∧
      ((web_download_worker (ProcOutcome.exn lines msg)).done = false ∧
       (web_download_worker (ProcOutcome.exn lines msg)).error = some msg) := by
  intro lines exit scan msg f
  have hj := runLoop_flags lines
  refine ⟨?_, ?_, ?_, ?_, ?_⟩
  · rintro ⟨rfl, hann, hf⟩
    have hfile : (List.foldl processLine initialJob lines).filename = some f := by
      rw [runLoop_filename_init]; exact hann
    simp only [web_download_worker, if_true, hfile]
    rw [if_neg (show ¬(falsyStr (some f) = true) by simp [falsyStr, hf])]
    exact ⟨rfl, hj.2, rfl⟩
  · rintro ⟨rfl, hscan⟩
    cases scan with
    | error m => exact absurd rfl (hscan m)
    | ok listing =>
      simp only [web_download_worker, if_true]
      by_cases hfb : falsyStr (List.foldl processLine initialJob lines).filename = true
      · rw [if_pos hfb]
        cases hnf : newestFile listing with
        | some g => simp only [hnf]; exact ⟨trivial, hj.2⟩
        | none => simp only [hnf]; exact ⟨trivial, hj.2⟩
      · rw [if_neg hfb]
        exact ⟨rfl, hj.2⟩
  · rintro ⟨rfl, hann, rfl⟩
    have hfile : (List.foldl processLine initialJob lines).filename = none := by
      rw [runLoop_filename_init]; exact hann
    simp only [web_download_worker, if_true, hfile]
    rw [if_pos (show falsyStr none = true from rfl)]
    exact ⟨rfl, rfl⟩
  · intro hexit
    simp only [web_download_worker]
    rw [if_neg hexit]
    exact ⟨hj.1, rfl⟩
  · exact ⟨hj.1, rfl⟩

theorem C3_witness :
    ((web_download_worker
        (ProcOutcome.ok ["[download] Destination: /data/vid.mp4"] 0 (Except.ok []))).done =
      true ∧
     (web_download_worker
        (ProcOutcome.ok ["[download] Destination: /data/vid.mp4"] 0 (Except.ok []))).error =
      none ∧
     (web_download_worker
        (ProcOutcome.ok ["[download] Destination: /data/vid.mp4"] 0 (Except.ok []))).filename =
      some "vid.mp4") ∧
    ((web_download_worker (ProcOutcome.ok [] 1 (Except.ok []))).done = false ∧
     (web_download_worker (ProcOutcome.ok [] 1 (Except.ok []))).error =
       some ("yt-dlp exited " ++ toString (1 : Int))) ∧
    ((web_download_worker (ProcOutcome.exn [] "spawn failed")).done = false ∧
     (web_download_worker (ProcOutcome.exn [] "spawn failed")).error = some "spawn failed") :=
  ⟨(C3_amended_terminal_states ["[download] Destination: /data/vid.mp4"] 0 (Except.ok [])
      "m" "vid.mp4").1 ⟨rfl, by decide, by decide⟩,
   (C3_amended_terminal_states [] 1 (Except.ok []) "m" "f").2.2.2.1 (by decide),
   (C3_amended_terminal_states [] 0 (Except.ok []) "spawn failed" "f").2.2.2.2⟩

/-- C4, counterexample.  The claim says no reachable job state ever
has `done=true` together with a non-null error, on every path
including the newest-file fallback scan.  On the run with exit code 0,
no destination line, and a raising fallback scan, the final registry
state (which lies on the worker's state trace) has `done=true` and a
non-null error: `done` was written before the scan, the error after
it. -/
theorem C4_counterexample :
    web_download_worker (ProcOutcome.ok [] 0 (Except.error "boom")) ∈
      workerTrace (ProcOutcome.ok [] 0 (Except.error "boom")) ∧
    (web_download_worker (ProcOutcome.ok [] 0 (Except.error "boom"))).done = true ∧
    (web_download_worker (ProcOutcome.ok [] 0 (Except.error "boom"))).error ≠ none := by
  refine ⟨?_, rfl, ?_⟩
  · have h := worker_eq_trace_last (ProcOutcome.ok [] 0 (Except.error "boom"))
    exact List.mem_of_mem_getLast? (by rw [h]; rfl)
  · intro hc
    exact Option.noConfusion hc

/-- C4, amended.  Along every worker run, `done` and `error` are
monotone write-once fields: consecutive trace states never unset
`done` and never change a recorded error (this holds on all paths,
including the raising fallback scan); and whenever the fallback scan
does not raise, no reachable state combines `done=true` with a
non-null error. -/
theorem C4_amended_write_once :
    ∀ proc : ProcOutcome,
      List.Chain' monoStep (workerTrace proc) ∧
      (scanOk proc → ∀ j ∈ workerTrace proc, ¬(j.done = true ∧ j.error ≠ none)) :=
  fun proc => ⟨workerTrace_chain proc, fun h => workerTrace_excl proc h⟩

theorem C4_witness :
    List.Chain' monoStep (workerTrace (ProcOutcome.ok ["line one"] 0
      (Except.ok [("a.mp4", 3)]))) ∧
    ¬((web_download_worker (ProcOutcome.ok ["line one"] 0 (Except.ok [("a.mp4", 3)]))).done =
        true ∧
      (web_download_worker (ProcOutcome.ok ["line one"] 0 (Except.ok [("a.mp4", 3)]))).error ≠
        none) := by
  refine ⟨(C4_amended_write_once (ProcOutcome.ok ["line one"] 0 (Except.ok [("a.mp4", 3)]))).1,
    (C4_amended_write_once (ProcOutcome.ok ["line one"] 0 (Except.ok [("a.mp4", 3)]))).2
      trivial _ ?_⟩
  have h := worker_eq_trace_last (ProcOutcome.ok ["line one"] 0 (Except.ok [("a.mp4", 3)]))
  exact List.mem_of_mem_getLast? (by rw [h]; rfl)

/-- C5: the Command Builder is a pure function of the five inputs and
the single cookie-file existence bit (determinism is definitional: it
is a function); an unknown quality label yields the same command as
the "480p" label (height ceiling 480), an unknown speed label the same
command as the "Turbo" fast profile, and for every input the builder
succeeds, returning a command that invokes the external tool. -/
theorem C5_builder_defaults :
    ∀ (url q fmt cookies s : String) (ce : Bool),
      (QUALITY_MAP.lookup q = none →
        build_web_cmd url q fmt cookies s ce = build_web_cmd url "480p" fmt cookies s ce) ∧
      (SPEED_MAP.lookup s = none →
        build_web_cmd url q fmt cookies s ce = build_web_cmd url q fmt cookies "Turbo" ce) ∧
      (build_web_cmd url q fmt cookies s ce).head? = some "yt-dlp" := by
  intro url q fmt cookies s ce
  refine ⟨?_, ?_, ?_⟩
  · intro h
    simp only [build_web_cmd, h]
    rfl
  · intro h
    simp only [build_web_cmd, h]
    rfl
  · simp only [build_web_cmd]
    by_cases hf : fmt = "MP4 - Video" <;> simp [hf]

theorem C5_witness :
    QUALITY_MAP.lookup "Ultra" = none ∧
    build_web_cmd "u" "Ultra" "MP4 - Video" "none" "Warp" false =
      build_web_cmd "u" "480p" "MP4 - Video" "none" "Warp" false ∧
    SPEED_MAP.lookup "Warp" = none ∧
    build_web_cmd "u" "Ultra" "MP4 - Video" "none" "Warp" false =
      build_web_cmd "u" "Ultra" "MP4 - Video" "none" "Turbo" false ∧
    (build_web_cmd "u" "Ultra" "MP4 - Video" "none" "Warp" false).head? = some "yt-dlp" :=
  ⟨by decide,
   (C5_builder_defaults "u" "Ultra" "MP4 - Video" "none" "Warp" false).1 (by decide),
   by decide,
   (C5_builder_defaults "u" "Ultra" "MP4 - Video" "none" "Warp" false).2.1 (by decide),
   (C5_builder_defaults "u" "Ultra" "MP4 - Video" "none" "Warp" false).2.2⟩

/-- C6: on a line where the full pattern matches, the parser returns
exactly the matched groups — the percentage is the numeric
interpretation (`float`) of the matched numeric text, the rate is the
exact matched substring of the line, and the ETA is the matched
`MM:SS` group; on a line where only the reduced pattern matches, the
percentage and rate are returned with the ETA absent. -/
theorem C6_parser_groups :
    ∀ (line : String) (g1 g2 g3 : List Char),
      (searchFull line.data = some (g1, g2, g3) →
        parse_progress_line line = some (decimalVal g1, String.mk g2, some (String.mk g3)) ∧
        listWithin g2 line.data ∧ isMMSS g3 = true) ∧
      (searchFull line.data = none → searchReduced line.data = some (g1, g2) →
        parse_progress_line line = some (decimalVal g1, String.mk g2, none)) := by
  intro line g1 g2 g3
  constructor
  · intro h
    refine ⟨?_, (searchFull_props line.data g1 g2 g3 h).1,
      (searchFull_props line.data g1 g2 g3 h).2⟩
    simp only [parse_progress_line, h]
  · intro h1 h2
    simp only [parse_progress_line, h1, h2]

theorem C6_witness :
    parse_progress_line "[download]  12.3% of ~10.00MiB at 1.23MiB/s ETA 00:12" =
      some (decimalVal ("12.3").data, "1.23MiB/s", some "00:12") ∧
    listWithin ("1.23MiB/s").data
      ("[download]  12.3% of ~10.00MiB at 1.23MiB/s ETA 00:12").data ∧
    isMMSS ("00:12").data = true ∧
    parse_progress_line "[download]   5% of 3MiB at 500KiB/s" =
      some (decimalVal ("5").data, "500KiB/s", none) := by
  have hfull := (C6_parser_groups "[download]  12.3% of ~10.00MiB at 1.23MiB/s ETA 00:12"
    ("12.3").data ("1.23MiB/s").data ("00:12").data).1 (by decide)
  have hred := (C6_parser_groups "[download]   5% of 3MiB at 500KiB/s"
    ("5").data ("500KiB/s").data []).2 (by decide) (by decide)
  exact ⟨hfull.1, hfull.2.1, hfull.2.2, hred⟩

/-- C7: a line matching neither pattern yields no structured result
from the parser, leaves the job's percentage, rate and ETA exactly as
they were, and still replaces the free-text status with the (stripped)
line truncated to 160 characters. -/
theorem C7_no_match_keeps_metrics :
    ∀ (job : Job) (raw : String),
      searchFull (pyStrip raw).data = none → searchReduced (pyStrip raw).data = none →
      parse_progress_line (pyStrip raw) = none ∧
      (processLine job raw).status.pct = job.status.pct ∧
      (processLine job raw).status.speed = job.status.speed ∧
      (processLine job raw).status.eta = job.status.eta ∧
      (processLine job raw).status.text = pyTake 160 (pyStrip raw) := by
  intro job raw h1 h2
  have hp : parse_progress_line (pyStrip raw) = none := by
    simp only [parse_progress_line, h1, h2]
  refine ⟨hp, ?_, ?_, ?_, ?_⟩ <;>
    · simp only [processLine, hp]
      split <;> rfl

theorem C7_witness :
    parse_progress_line (pyStrip "[merger] Merging formats into mkv") = none ∧
    (processLine initialJob "[merger] Merging formats into mkv").status.pct =
      initialJob.status.pct ∧
    (processLine initialJob "[merger] Merging formats into mkv").status.speed =
      initialJob.status.speed ∧
    (processLine initialJob "[merger] Merging formats into mkv").status.eta =
      initialJob.status.eta ∧
    (processLine initialJob "[merger] Merging formats into mkv").status.text =
      pyTake 160 (pyStrip "[merger] Merging formats into mkv") :=
  C7_no_match_keeps_metrics initialJob "[merger] Merging formats into mkv"
    (by decide) (by decide)

/-- C8: fetching a filename whose joined path names no existing file
yields a not-found result and schedules no deletion; fetching an
existing file (under a traversal-free filename) returns its full byte
content and schedules removal of exactly that path after the fixed
10-unit grace delay, scheduled before the transfer outcome can be
known; and the delayed deletion is total — it removes exactly the
scheduled path and swallows failures (deleting an already-absent path
is a no-op on the rest of the filesystem). -/
theorem C8_fetch_delete :
    ∀ (fs : Path → Option (List Nat)) (dir : Path) (fn : String) (c : List Nat),
      (fs (resolve (joinPath dir fn)) = none →
        web_fetch fs dir fn = (FetchResp.notFound 404, none)) ∧
      (safe_join_ok fn = true → fs (resolve (joinPath dir fn)) = some c →
        web_fetch fs dir fn = (FetchResp.file c, some (resolve (joinPath dir fn), 10))) ∧
      (∀ p q : Path, delayed_delete fs p p = none ∧
        (q ≠ p → delayed_delete fs p q = fs q)) := by
  intro fs dir fn c
  refine ⟨?_, ?_, ?_⟩
  · intro h
    simp [web_fetch, h]
  · intro hsafe h
    have habs : isAbsFn fn = false := by
      cases hb : isAbsFn fn with
      | false => rfl
      | true => rw [safe_join_ok, hb] at hsafe; exact absurd hsafe (by simp)
    have hjoin : joinPath dir fn = dir ++ segsOf fn := by
      simp [joinPath, habs]
    simp only [web_fetch, h, Option.isSome_some, if_true]
    simp only [send_from_directory, hsafe, if_true, ← hjoin, h]
  · intro p q
    constructor
    · simp [delayed_delete]
    · intro hq
      simp [delayed_delete, hq]

theorem C8_witness :
    web_fetch fsOutside ["srv", "web_downloader"] "absent.mp4" =
      (FetchResp.notFound 404, none) ∧
    web_fetch (fun p => if p = ["srv", "web_downloader", "vid.mp4"] then some [1, 2, 3]
        else none) ["srv", "web_downloader"] "vid.mp4" =
      (FetchResp.file [1, 2, 3],
        some (resolve (joinPath ["srv", "web_downloader"] "vid.mp4"), 10)) ∧
    delayed_delete fsOutside ["srv", "secret"] ["srv", "secret"] = none :=
  ⟨(C8_fetch_delete fsOutside ["srv", "web_downloader"] "absent.mp4" []).1 (by decide),
   (C8_fetch_delete (fun p => if p = ["srv", "web_downloader", "vid.mp4"] then some [1, 2, 3]
      else none) ["srv", "web_downloader"] "vid.mp4" [1, 2, 3]).2.1 (by decide) (by decide),
   ((C8_fetch_delete fsOutside [] "x" []).2.2 ["srv", "secret"] []).1⟩

/-- C9: whenever a line carries a destination announcement (the
`Destination:` token followed by a whitespace character and a nonempty
path), the worker sets the job's filename candidate to exactly the
base name of the announced path; and the base name of a path of any
directory depth is its final component. -/
theorem C9_destination_basename :
    ∀ (job : Job) (raw : String) (p : List Char),
      (findDest (pyStrip raw).data = some p →
        (processLine job raw).filename = some (String.mk (basenameL p))) ∧
      (∀ pre name : List Char, (∀ c ∈ name, (c != '/') = true) →
        basenameL (pre ++ '/' :: name) = name) := by
  intro job raw p
  constructor
  · intro h
    rw [processLine_filename]
    simp only [h]
  · intro pre name hn
    exact basenameL_depth pre name hn

theorem C9_witness :
    (processLine initialJob "[download] Destination: videos/out/clip.mp4").filename =
      some (String.mk (basenameL ("videos/out/clip.mp4").data)) ∧
    String.mk (basenameL ("videos/out/clip.mp4").data) = "clip.mp4" ∧
    basenameL (("videos/out").data ++ '/' :: ("clip.mp4").data) = ("clip.mp4").data :=
  ⟨(C9_destination_basename initialJob "[download] Destination: videos/out/clip.mp4"
      ("videos/out/clip.mp4").data).1 (by decide),
   by decide,
   (C9_destination_basename initialJob "x" []).2 ("videos/out").data ("clip.mp4").data
     (by decide)⟩

/-- C10: a status request whose job parameter is absent, empty, or not
a registry key gets the same client-error response (`ok=false`,
message "Invalid job", HTTP 400) — never a zero-valued job snapshot —
and a missing parameter is indistinguishable from an unknown id. -/
theorem C10_status_client_errors :
    ∀ (jobs : Registry) (p : Option String),
      ((p = none ∨ p = some "" ∨ (∃ id, p = some id ∧ jobs.lookup id = none)) →
        web_status jobs p = StatusResp.clientErr false "Invalid job" 400) ∧
      (∀ id, jobs.lookup id = none →
        web_status jobs (some id) = web_status jobs none) := by
  intro jobs p
  constructor
  · rintro (rfl | rfl | ⟨id, rfl, hl⟩)
    · rfl
    · rfl
    · by_cases hid : id = "" <;> simp [web_status, hid, hl]
  · intro id hl
    by_cases hid : id = "" <;> simp [web_status, hid, hl]

theorem C10_witness :
    web_status [("abc", initialJob)] (some "zzz") =
      StatusResp.clientErr false "Invalid job" 400 ∧
    web_status [("abc", initialJob)] (some "zzz") = web_status [("abc", initialJob)] none :=
  ⟨(C10_status_client_errors [("abc", initialJob)] (some "zzz")).1
     (Or.inr (Or.inr ⟨"zzz", rfl, by decide⟩)),
   (C10_status_client_errors [("abc", initialJob)] (some "zzz")).2 "zzz" (by decide)⟩

end YtWeb
